import Mathlib

/-!
Verification of the CRAWL4AI_VALIDATOR chat client against its specification.

The development shallowly embeds the two source files:
* `src/services/sessionService.ts` — the in-memory per-session message store
  (a JS `Map<string, Message[]>` with `createSession` / `getHistory` /
  `addMessage` / `clearSession`);
* `src/components/ChatInput.tsx` — the chat-input component
  (`handleSubmit`, `handleFileSelect`), the `App` component
  (`handleSendMessage` turn driver and its status state machine), and the
  `AgentRunner` service (`getOrCreateChat`, `call_agent_async`,
  `resetSession`).

JS `Map` objects are embedded as association lists in insertion order;
`Map.set` updates an existing binding in place, `Map.delete` removes it.
Data shapes imported from the missing `types.ts` module (`Message`,
`Attachment`, `GroundingChunk`, `AgentResponse`, session status) are
modelled from the spec's data-model section.
-/

namespace Crawl4AI

/-- JS `Map.get`: the value bound to the first (and, under the no-duplicate
keys invariant, only) occurrence of the key. -/
def mapGet? {α : Type} : List (String × α) → String → Option α
  | [], _ => none
  | (k', v') :: rest, k => if k' = k then some v' else mapGet? rest k

/-- JS `Map.set`: replaces the binding in place when the key is present,
otherwise appends the new binding at the end (insertion order). -/
def mapSet {α : Type} : List (String × α) → String → α → List (String × α)
  | [], k, v => [(k, v)]
  | (k', v') :: rest, k, v =>
      if k' = k then (k, v) :: rest else (k', v') :: mapSet rest k v

/-- JS `Map.delete`: removes the binding for the key. -/
def mapDelete {α : Type} : List (String × α) → String → List (String × α)
  | [], _ => []
  | (k', v') :: rest, k =>
      if k' = k then mapDelete rest k else (k', v') :: mapDelete rest k

theorem mapGet?_mapSet_self {α : Type} (s : List (String × α)) (k : String) (v : α) :
    mapGet? (mapSet s k v) k = some v := by
  induction s with
  | nil => simp [mapGet?, mapSet]
  | cons p rest ih =>
      by_cases h : p.1 = k
      · simp [mapSet, mapGet?, h]
      · simp [mapSet, mapGet?, h, ih]

theorem mapGet?_mapSet_ne {α : Type} (s : List (String × α)) (k k' : String) (v : α)
    (h : k ≠ k') : mapGet? (mapSet s k v) k' = mapGet? s k' := by
  induction s with
  | nil => simp [mapGet?, mapSet, h]
  | cons p rest ih =>
      by_cases hp : p.1 = k
      · subst hp
        simp [mapSet, mapGet?, h]
      · simp [mapSet, mapGet?, hp, ih]

theorem mapGet?_mapDelete_self {α : Type} (s : List (String × α)) (k : String) :
    mapGet? (mapDelete s k) k = none := by
  induction s with
  | nil => simp [mapGet?, mapDelete]
  | cons p rest ih =>
      by_cases hp : p.1 = k
      · simp [mapDelete, hp, ih]
      · simp [mapDelete, mapGet?, hp, ih]

theorem mapGet?_mapDelete_ne {α : Type} (s : List (String × α)) (k k' : String)
    (h : k ≠ k') : mapGet? (mapDelete s k) k' = mapGet? s k' := by
  induction s with
  | nil => simp [mapDelete]
  | cons p rest ih =>
      by_cases hp : p.1 = k
      · subst hp
        simp [mapDelete, mapGet?, h, ih]
      · simp [mapDelete, mapGet?, hp, ih]

/-- Keys of an association list are pairwise distinct (the `Map` invariant). -/
def keysNodup {α : Type} (s : List (String × α)) : Prop :=
  (s.map Prod.fst).Nodup

theorem fst_mem_of_mem_mapSet {α : Type} (s : List (String × α)) (k : String) (v : α)
    (q : String × α) (hq : q ∈ mapSet s k v) : q.1 = k ∨ q.1 ∈ s.map Prod.fst := by
  induction s with
  | nil => simp [mapSet] at hq; simp [hq]
  | cons r rs ihr =>
      by_cases hr : r.1 = k
      · rw [show mapSet (r :: rs) k v = (k, v) :: rs by
            cases r with | mk a b => simp [mapSet, show a = k from hr]] at hq
        rcases List.mem_cons.mp hq with hq | hq
        · left; simp [hq]
        · right; exact List.mem_cons_of_mem _ (List.mem_map_of_mem Prod.fst hq)
      · rw [show mapSet (r :: rs) k v = r :: mapSet rs k v by cases r; simp [mapSet, hr]] at hq
        rcases List.mem_cons.mp hq with hq | hq
        · right; simp [hq]
        · rcases ihr hq with h1 | h1
          · left; exact h1
          · right; exact List.mem_cons_of_mem _ h1

theorem mem_of_mem_mapDelete {α : Type} (s : List (String × α)) (k : String)
    (q : String × α) (hq : q ∈ mapDelete s k) : q ∈ s := by
  induction s with
  | nil => simp [mapDelete] at hq
  | cons r rs ihr =>
      by_cases hr : r.1 = k
      · rw [show mapDelete (r :: rs) k = mapDelete rs k by
            cases r with | mk a b => simp [mapDelete, show a = k from hr]] at hq
        exact List.mem_cons_of_mem r (ihr hq)
      · rw [show mapDelete (r :: rs) k = r :: mapDelete rs k by cases r; simp [mapDelete, hr]] at hq
        rcases List.mem_cons.mp hq with hq | hq
        · simp [hq]
        · exact List.mem_cons_of_mem r (ihr hq)

theorem keysNodup_mapSet {α : Type} (s : List (String × α)) (k : String) (v : α)
    (h : keysNodup s) : keysNodup (mapSet s k v) := by
  induction s with
  | nil => simp [keysNodup, mapSet]
  | cons p rest ih =>
      simp only [keysNodup, List.map_cons, List.nodup_cons] at h
      by_cases hp : p.1 = k
      · subst hp
        simpa [keysNodup, mapSet] using h
      · have hrest := ih h.2
        have hms : mapSet (p :: rest) k v = p :: mapSet rest k v := by
          cases p; simp [mapSet, hp]
        rw [hms]
        simp only [keysNodup, List.map_cons, List.nodup_cons]
        refine ⟨?_, hrest⟩
        intro hmem
        rcases List.mem_map.mp hmem with ⟨q, hq, hqk⟩
        rcases fst_mem_of_mem_mapSet rest k v q hq with h1 | h1
        · exact hp (hqk ▸ h1 ▸ rfl)
        · exact h.1 (hqk ▸ h1)

theorem keysNodup_mapDelete {α : Type} (s : List (String × α)) (k : String)
    (h : keysNodup s) : keysNodup (mapDelete s k) := by
  induction s with
  | nil => simp [keysNodup, mapDelete]
  | cons p rest ih =>
      simp only [keysNodup, List.map_cons, List.nodup_cons] at h
      by_cases hp : p.1 = k
      · exact hp ▸ (by simpa [keysNodup, mapDelete, hp] using ih h.2)
      · have hrest := ih h.2
        have hmd : mapDelete (p :: rest) k = p :: mapDelete rest k := by
          cases p; simp [mapDelete, hp]
        rw [hmd]
        simp only [keysNodup, List.map_cons, List.nodup_cons]
        refine ⟨?_, hrest⟩
        intro hmem
        rcases List.mem_map.mp hmem with ⟨q, hq, hqk⟩
        exact h.1 (hqk ▸ List.mem_map_of_mem Prod.fst (mem_of_mem_mapDelete rest k q hq))

/-!  Data model.  The shapes below come from the spec's data-model section
(`types.ts` is not part of the sources): `Message`, `Attachment`,
`GroundingChunk` (a provider grounding entry with an optional `web` part
holding a source URI and optional title), `AgentResponse`, and the turn
status. -/

/-- Modelled from the spec: the `web` part of a provider grounding entry —
a source URI plus optional title (spec §3, `GroundingChunk`). -/
structure WebSource where
  uri : String
  title : Option String
deriving DecidableEq, Repr

/-- Modelled from the spec: a provider grounding entry; the `web` part may be
absent (the Agent Client filters on its presence). -/
structure GroundingChunk where
  web : Option WebSource
deriving DecidableEq, Repr

/-- Modelled from the spec: an attachment is a base64 payload plus its media
type (spec §3, `Attachment`). -/
structure Attachment where
  base64 : String
  mimeType : String
deriving DecidableEq, Repr

/-- Modelled from the spec: message roles user / assistant / system. -/
inductive MessageRole where
  | user
  | assistant
  | system
deriving DecidableEq, Repr

/-- Modelled from the spec: a chat message (spec §3, `Message`); ids and
timestamps are opaque tokens, embedded as naturals. -/
structure Message where
  id : Nat
  role : MessageRole
  content : String
  timestamp : Nat
  attachment : Option Attachment := none
  groundingChunks : Option (List GroundingChunk) := none
deriving DecidableEq, Repr

/-!  `src/services/sessionService.ts` — `InMemorySessionService`.
The `sessions : Map<string, Message[]>` field is the association list. -/

/-- The session store: `private sessions: Map<string, Message[]>`. -/
abbrev SessionStore : Type := List (String × List Message)

/-- `createSession`: registers a fresh identifier (supplied by the
environment's `crypto.randomUUID`) with an empty message sequence. -/
def createSession (sessions : SessionStore) (newId : String) : SessionStore :=
  mapSet sessions newId []

/-- `getHistory`: `this.sessions.get(sessionId) || []`. -/
def getHistory (sessions : SessionStore) (sessionId : String) : List Message :=
  (mapGet? sessions sessionId).getD []

/-- `addMessage`: reads the history (empty for an unknown session), pushes the
message at the end, and stores the result back under the identifier. -/
def addMessage (sessions : SessionStore) (sessionId : String) (message : Message) :
    SessionStore :=
  mapSet sessions sessionId (getHistory sessions sessionId ++ [message])

/-- `clearSession`: `this.sessions.delete(sessionId)`. -/
def clearSession (sessions : SessionStore) (sessionId : String) : SessionStore :=
  mapDelete sessions sessionId

theorem getHistory_addMessage_self (sessions : SessionStore) (sid : String) (m : Message) :
    getHistory (addMessage sessions sid m) sid = getHistory sessions sid ++ [m] := by
  simp [getHistory, addMessage, mapGet?_mapSet_self]

theorem getHistory_addMessage_ne (sessions : SessionStore) (sid sid' : String)
    (h : sid ≠ sid') (m : Message) :
    getHistory (addMessage sessions sid m) sid' = getHistory sessions sid' := by
  simp [getHistory, addMessage, mapGet?_mapSet_ne _ _ _ _ h]

theorem getHistory_foldl_addMessage (sessions : SessionStore) (sid : String)
    (msgs : List Message) :
    getHistory (msgs.foldl (fun s m => addMessage s sid m) sessions) sid
      = getHistory sessions sid ++ msgs := by
  induction msgs generalizing sessions with
  | nil => simp
  | cons m rest ih =>
      simp only [List.foldl_cons]
      rw [ih, getHistory_addMessage_self]
      simp

/-- C3: for every session identifier, any sequence of `addMessage` calls is
returned by `getHistory` appended in exact call order (append-only,
order-preserving, no reordering or deduplication), and an `addMessage` on an
unknown identifier implicitly creates the session holding that single
message. -/
theorem addMessage_getHistory_order (sessions : SessionStore) (sid : String)
    (msgs : List Message) :
    (getHistory (msgs.foldl (fun s m => addMessage s sid m) sessions) sid
        = getHistory sessions sid ++ msgs)
    ∧ (mapGet? sessions sid = none → ∀ m : Message,
        getHistory (addMessage sessions sid m) sid = [m]
          ∧ mapGet? (addMessage sessions sid m) sid = some [m]) := by
  refine ⟨getHistory_foldl_addMessage sessions sid msgs, ?_⟩
  intro hnone m
  constructor
  · rw [getHistory_addMessage_self]
    simp [getHistory, hnone]
  · simp [addMessage, getHistory, hnone, mapGet?_mapSet_self]

/-- Witness for C3 at a concrete store: two messages added to the empty store
under session "s" come back in order, and the first add on the unknown
identifier creates the session with that single message. -/
theorem addMessage_getHistory_order_witness :
    (getHistory
        (([{ id := 1, role := MessageRole.user, content := "a", timestamp := 0 },
           { id := 2, role := MessageRole.assistant, content := "b", timestamp := 1 }] :
            List Message).foldl (fun s m => addMessage s "s" m) ([] : SessionStore)) "s"
      = getHistory ([] : SessionStore) "s"
          ++ [{ id := 1, role := MessageRole.user, content := "a", timestamp := 0 },
              { id := 2, role := MessageRole.assistant, content := "b", timestamp := 1 }])
    ∧ (getHistory
          (addMessage ([] : SessionStore) "s"
            { id := 1, role := MessageRole.user, content := "a", timestamp := 0 }) "s"
        = [{ id := 1, role := MessageRole.user, content := "a", timestamp := 0 }]) := by
  refine ⟨(addMessage_getHistory_order [] "s" _).1, ?_⟩
  exact (((addMessage_getHistory_order ([] : SessionStore) "s" []).2 (by rfl))
    { id := 1, role := MessageRole.user, content := "a", timestamp := 0 }).1

/-- C9: `getHistory` after `clearSession` on the same identifier is always the
empty sequence, whatever was stored before, and an unknown identifier reads as
empty — the store operations are total functions, so no error is signalled. -/
theorem clearSession_getHistory_empty (sessions : SessionStore) (sid : String) :
    getHistory (clearSession sessions sid) sid = []
      ∧ (mapGet? sessions sid = none → getHistory sessions sid = []) := by
  constructor
  · simp [getHistory, clearSession, mapGet?_mapDelete_self]
  · intro h; simp [getHistory, h]

/-- Witness for C9 at a concrete store: clearing session "s" (which holds one
message) empties it, and the unknown identifier "t" reads as empty. -/
theorem clearSession_getHistory_empty_witness :
    (getHistory
        (clearSession
          (addMessage ([] : SessionStore) "s"
            { id := 1, role := MessageRole.user, content := "a", timestamp := 0 }) "s") "s"
      = [])
    ∧ getHistory ([] : SessionStore) "t" = [] := by
  refine ⟨(clearSession_getHistory_empty _ "s").1, ?_⟩
  exact (clearSession_getHistory_empty ([] : SessionStore) "t").2 (by rfl)

/-- C10: session-store operations are session-local — `addMessage` and
`clearSession` on one identifier leave `getHistory` of any other identifier
unchanged. -/
theorem sessionStore_frame (sessions : SessionStore) (sid sid' : String)
    (h : sid ≠ sid') (m : Message) :
    getHistory (addMessage sessions sid m) sid' = getHistory sessions sid'
      ∧ getHistory (clearSession sessions sid) sid' = getHistory sessions sid' := by
  constructor
  · exact getHistory_addMessage_ne sessions sid sid' h m
  · simp [getHistory, clearSession, mapGet?_mapDelete_ne _ _ _ h]

/-- Witness for C10: adding to and clearing session "s" does not change the
history of session "t". -/
theorem sessionStore_frame_witness :
    (getHistory
        (addMessage
          (addMessage ([] : SessionStore) "t"
            { id := 7, role := MessageRole.system, content := "keep", timestamp := 0 }) "s"
          { id := 1, role := MessageRole.user, content := "a", timestamp := 0 }) "t"
      = getHistory
          (addMessage ([] : SessionStore) "t"
            { id := 7, role := MessageRole.system, content := "keep", timestamp := 0 }) "t")
    ∧ (getHistory
          (clearSession
            (addMessage ([] : SessionStore) "t"
              { id := 7, role := MessageRole.system, content := "keep", timestamp := 0 }) "s") "t"
        = getHistory
            (addMessage ([] : SessionStore) "t"
              { id := 7, role := MessageRole.system, content := "keep", timestamp := 0 }) "t") :=
  sessionStore_frame _ "s" "t" (by decide)
    { id := 1, role := MessageRole.user, content := "a", timestamp := 0 }

/-!  `AgentRunner.call_agent_async` (agent service inside
`src/components/ChatInput.tsx`): the streaming fold that turns raw provider
chunks into cumulative `AgentResponse` snapshots. -/

/-- One raw streamed provider chunk as consumed by `call_agent_async`:
`responseChunk.text` may be absent (the code substitutes `""`), and
`responseChunk.candidates?.[0]?.groundingMetadata?.groundingChunks` may be
absent. -/
structure ProviderChunk where
  text : Option String
  groundingChunks : Option (List GroundingChunk)
deriving DecidableEq, Repr

/-- Modelled from the spec: an incremental response snapshot
(`AgentResponse` from `types.ts`): cumulative text plus the optional
deduplicated citation list. -/
structure AgentResponse where
  text : String
  groundingChunks : Option (List GroundingChunk)
deriving DecidableEq, Repr

/-- `const text = responseChunk.text || ""`. -/
def chunkText (c : ProviderChunk) : String := c.text.getD ""

/-- The dedup key `gc.web?.uri` (absent `web` reads as an absent key). -/
def gcKey (gc : GroundingChunk) : Option String := gc.web.map WebSource.uri

/-- One step of the citation accumulator: push `wc` at the end unless some
already-collected citation has the same `web?.uri`
(`groundingChunks.some(gc => gc.web?.uri === wc.web?.uri)`). -/
def dedupPush (acc : List GroundingChunk) (wc : GroundingChunk) : List GroundingChunk :=
  if acc.any (fun gc => gcKey gc == gcKey wc) then acc else acc ++ [wc]

/-- The web chunks a provider chunk contributes:
`metadata.groundingChunks.filter(c => !!c.web)` when metadata is present. -/
def webOf (c : ProviderChunk) : List GroundingChunk :=
  match c.groundingChunks with
  | some raw => raw.filter (fun r => r.web.isSome)
  | none => []

/-- The loop body of `call_agent_async`: running text accumulator `accText`,
citation accumulator `accGC`; each chunk appends its text, folds its web
chunks through `dedupPush`, and yields a snapshot whose citation list is
present only when nonempty
(`groundingChunks.length > 0 ? groundingChunks : undefined`). -/
def agentStream (accText : String) (accGC : List GroundingChunk) :
    List ProviderChunk → List AgentResponse
  | [] => []
  | c :: rest =>
      let accText' := accText ++ chunkText c
      let accGC' := (webOf c).foldl dedupPush accGC
      { text := accText',
        groundingChunks := if accGC'.length > 0 then some accGC' else none }
        :: agentStream accText' accGC' rest

/-- `call_agent_async`: the yielded snapshot sequence for a finite provider
stream, starting from empty accumulators. -/
def call_agent_async (chunks : List ProviderChunk) : List AgentResponse :=
  agentStream "" [] chunks

/-- Concatenation of a list of chunk texts, `t1 ++ ... ++ tn`. -/
def concatTexts : List String → String
  | [] => ""
  | s :: ss => s ++ concatTexts ss

/-- All web chunks of a turn, in stream order. -/
def allWebChunks (chunks : List ProviderChunk) : List GroundingChunk :=
  (chunks.map webOf).flatten

/-- The citation accumulator after folding a batch of web chunks. -/
def dedupFold (acc : List GroundingChunk) (ws : List GroundingChunk) :
    List GroundingChunk :=
  ws.foldl dedupPush acc

theorem dedupFold_append (acc ws1 ws2 : List GroundingChunk) :
    dedupFold acc (ws1 ++ ws2) = dedupFold (dedupFold acc ws1) ws2 :=
  List.foldl_append dedupPush acc ws1 ws2

theorem agentStream_length (chunks : List ProviderChunk) (t : String)
    (g : List GroundingChunk) : (agentStream t g chunks).length = chunks.length := by
  induction chunks generalizing t g with
  | nil => rfl
  | cons c rest ih => simp [agentStream, ih]

theorem agentStream_get? (chunks : List ProviderChunk) (t : String)
    (g : List GroundingChunk) (i : Nat) (h : i < chunks.length) :
    (agentStream t g chunks).get? i =
      some { text := t ++ concatTexts ((chunks.take (i + 1)).map chunkText),
             groundingChunks :=
               let acc := dedupFold g (allWebChunks (chunks.take (i + 1)))
               if acc.length > 0 then some acc else none } := by
  induction chunks generalizing t g i with
  | nil => exact absurd h (by simp)
  | cons c rest ih =>
      cases i with
      | zero =>
          simp [agentStream, concatTexts, allWebChunks, dedupFold,
            String.append_empty]
      | succ i =>
          have h' : i < rest.length := by simpa using h
          simp only [agentStream, List.get?_cons_succ]
          rw [ih _ _ i h']
          simp only [List.take_succ_cons, List.map_cons, concatTexts, allWebChunks,
            List.flatten_cons]
          rw [dedupFold_append, String.append_assoc]
          rfl


theorem concatTexts_take_succ (chunks : List ProviderChunk) (i : Nat) (c : ProviderChunk)
    (h : chunks.get? i = some c) :
    concatTexts ((chunks.take (i + 1)).map chunkText)
      = concatTexts ((chunks.take i).map chunkText) ++ chunkText c := by
  induction chunks generalizing i with
  | nil => simp at h
  | cons x rest ih =>
      cases i with
      | zero =>
          have hc : c = x := by simpa using h.symm
          subst hc
          simp [concatTexts, String.append_empty, String.empty_append]
      | succ i =>
          have h' : rest.get? i = some c := by simpa using h
          simp only [List.take_succ_cons, List.map_cons, concatTexts, ih i h',
            String.append_assoc]

/-- C1 (amended): `call_agent_async` yields one snapshot per provider chunk;
the i-th snapshot's `text` is the full accumulated concatenation
`t1 ++ ... ++ t(i+1)` of the chunk texts so far (not a delta); each next
snapshot text is the previous one with the next chunk's text appended — so the
sequence is monotonically non-decreasing by concatenation, never shrinking or
resetting, and grows strictly exactly when the chunk's text is nonempty; for
chunks "Hel", "lo ", "World" the snapshots are ["Hel", "Hello ",
"Hello World"]. -/
theorem call_agent_async_snapshots (chunks : List ProviderChunk) :
    ((call_agent_async chunks).length = chunks.length)
    ∧ (∀ i, i < chunks.length → ∃ r : AgentResponse,
          (call_agent_async chunks).get? i = some r
            ∧ r.text = concatTexts ((chunks.take (i + 1)).map chunkText))
    ∧ (∀ i r r' c, (call_agent_async chunks).get? i = some r →
          (call_agent_async chunks).get? (i + 1) = some r' →
          chunks.get? (i + 1) = some c →
          r'.text = r.text ++ chunkText c)
    ∧ ((call_agent_async
          [⟨some "Hel", none⟩, ⟨some "lo ", none⟩, ⟨some "World", none⟩]).map
            AgentResponse.text = ["Hel", "Hello ", "Hello World"]) := by
  refine ⟨agentStream_length chunks "" [], ?_, ?_, by rfl⟩
  · intro i hi
    refine ⟨_, agentStream_get? chunks "" [] i hi, ?_⟩
    simp [String.empty_append]
  · intro i r r' c hr hr' hc
    have hi' : i + 1 < chunks.length := (List.get?_eq_some.mp hc).1
    have hi : i < chunks.length := Nat.lt_of_succ_lt hi'
    rw [call_agent_async, agentStream_get? chunks "" [] i hi] at hr
    rw [call_agent_async, agentStream_get? chunks "" [] (i + 1) hi'] at hr'
    have hrt : r.text = concatTexts ((chunks.take (i + 1)).map chunkText) := by
      have := (Option.some.injEq _ _).mp hr.symm
      rw [this]
      simp [String.empty_append]
    have hrt' : r'.text = concatTexts ((chunks.take (i + 1 + 1)).map chunkText) := by
      have := (Option.some.injEq _ _).mp hr'.symm
      rw [this]
      simp [String.empty_append]
    rw [hrt, hrt', concatTexts_take_succ chunks (i + 1) c hc]

/-- Witness for C1 at the spec's concrete three-chunk stream: snapshot 1 has
the accumulated text of the first two chunks, and snapshot 1 extends
snapshot 0 by the second chunk's text. -/
theorem call_agent_async_snapshots_witness :
    (∃ r : AgentResponse,
        (call_agent_async
            [⟨some "Hel", none⟩, ⟨some "lo ", none⟩, ⟨some "World", none⟩]).get? 1
          = some r
        ∧ r.text = concatTexts
            ((([⟨some "Hel", none⟩, ⟨some "lo ", none⟩, ⟨some "World", none⟩] :
                List ProviderChunk).take 2).map chunkText))
    ∧ ((⟨"Hello ", none⟩ : AgentResponse).text
        = (⟨"Hel", none⟩ : AgentResponse).text ++ chunkText ⟨some "lo ", none⟩) := by
  constructor
  · exact (call_agent_async_snapshots
      [⟨some "Hel", none⟩, ⟨some "lo ", none⟩, ⟨some "World", none⟩]).2.1 1 (by decide)
  · exact (call_agent_async_snapshots
      [⟨some "Hel", none⟩, ⟨some "lo ", none⟩, ⟨some "World", none⟩]).2.2.1 0
      ⟨"Hel", none⟩ ⟨"Hello ", none⟩ ⟨some "lo ", none⟩ rfl rfl rfl

/-- C1 counterexample: a provider chunk may carry the empty text (the code
maps a missing `text` to `""`), and then the next snapshot equals the previous
one — the snapshot text sequence is monotone but NOT strictly growing as the
claim states for every chunk sequence: with chunk texts "a" and "" the
snapshots are ["a", "a"], so the second snapshot neither extends nor differs
from the first. -/
theorem call_agent_async_snapshots_counterexample :
    ((call_agent_async [⟨some "a", none⟩, ⟨some "", none⟩]).map AgentResponse.text
        = ["a", "a"])
    ∧ ((call_agent_async [⟨some "a", none⟩, ⟨some "", none⟩]).get? 1
        = (call_agent_async [⟨some "a", none⟩, ⟨some "", none⟩]).get? 0) :=
  ⟨rfl, rfl⟩

/-!  Citation deduplication lemmas for C2. -/

theorem dedupPush_ne_nil (acc : List GroundingChunk) (wc : GroundingChunk) :
    dedupPush acc wc ≠ [] := by
  cases acc with
  | nil => simp [dedupPush]
  | cons a l =>
      by_cases h : (a :: l).any (fun gc => gcKey gc == gcKey wc) <;>
        simp [dedupPush, h]

theorem dedupFold_ne_nil_of_acc (ws : List GroundingChunk) (acc : List GroundingChunk)
    (h : acc ≠ []) : dedupFold acc ws ≠ [] := by
  induction ws generalizing acc with
  | nil => exact h
  | cons w ws ih => exact ih (dedupPush acc w) (dedupPush_ne_nil acc w)

theorem dedupFold_nil_eq_nil_iff (ws : List GroundingChunk) :
    dedupFold [] ws = [] ↔ ws = [] := by
  cases ws with
  | nil => simp [dedupFold]
  | cons w ws =>
      constructor
      · intro h
        exact absurd h (dedupFold_ne_nil_of_acc ws (dedupPush [] w) (dedupPush_ne_nil [] w))
      · intro h; simp at h

/-- Keys of the citation accumulator are pairwise distinct. -/
def gcKeysNodup (l : List GroundingChunk) : Prop := (l.map gcKey).Nodup

theorem gcKeysNodup_dedupPush (acc : List GroundingChunk) (wc : GroundingChunk)
    (h : gcKeysNodup acc) : gcKeysNodup (dedupPush acc wc) := by
  unfold dedupPush
  by_cases ha : acc.any (fun gc => gcKey gc == gcKey wc)
  · simpa [ha] using h
  · rw [if_neg ha]
    have hni : gcKey wc ∉ acc.map gcKey := by
      intro hmem
      rcases List.mem_map.mp hmem with ⟨x, hx, hxk⟩
      have : acc.any (fun gc => gcKey gc == gcKey wc) = true :=
        List.any_eq_true.mpr ⟨x, hx, by simp [hxk]⟩
      exact ha this
    simp only [gcKeysNodup, List.map_append, List.map_cons, List.map_nil]
    rw [List.nodup_append]
    exact ⟨h, List.nodup_singleton _, by
      intro a hamem hsing
      rcases List.mem_singleton.mp hsing with rfl
      exact hni hamem⟩

theorem gcKeysNodup_dedupFold (ws : List GroundingChunk) (acc : List GroundingChunk)
    (h : gcKeysNodup acc) : gcKeysNodup (dedupFold acc ws) := by
  induction ws generalizing acc with
  | nil => exact h
  | cons w ws ih => exact ih (dedupPush acc w) (gcKeysNodup_dedupPush acc w h)

theorem find?_dedupPush (acc : List GroundingChunk) (wc : GroundingChunk)
    (k : Option String) :
    (dedupPush acc wc).find? (fun x => gcKey x == k)
      = (acc ++ [wc]).find? (fun x => gcKey x == k) := by
  unfold dedupPush
  by_cases h : acc.any (fun gc => gcKey gc == gcKey wc)
  · rw [if_pos h, List.find?_append]
    cases hf : acc.find? (fun x => gcKey x == k) with
    | some v => rfl
    | none =>
        rcases List.any_eq_true.mp h with ⟨x, hx, hxw⟩
        have hxw' : gcKey x = gcKey wc := by simpa using hxw
        have hnk := List.find?_eq_none.mp hf
        have hwk : ¬ gcKey wc = k := by
          intro hk
          exact hnk x hx (by simp [hxw', hk])
        have hone : ([wc].find? (fun x => gcKey x == k)) = none := by
          rw [List.find?_eq_none]
          intro y hy
          rcases List.mem_singleton.mp hy with rfl
          simp [hwk]
        rw [hone]
        rfl
  · rw [if_neg h]

theorem find?_dedupFold (ws : List GroundingChunk) (acc : List GroundingChunk)
    (k : Option String) :
    (dedupFold acc ws).find? (fun x => gcKey x == k)
      = (acc ++ ws).find? (fun x => gcKey x == k) := by
  induction ws generalizing acc with
  | nil => simp [dedupFold]
  | cons w ws ih =>
      have step : dedupFold acc (w :: ws) = dedupFold (dedupPush acc w) ws := rfl
      rw [step, ih (dedupPush acc w)]
      rw [show acc ++ w :: ws = (acc ++ [w]) ++ ws by simp]
      rw [List.find?_append, List.find?_append, find?_dedupPush]

theorem any_dedupPush (acc : List GroundingChunk) (wc : GroundingChunk)
    (k : Option String) :
    (dedupPush acc wc).any (fun x => gcKey x == k)
      = (acc.any (fun x => gcKey x == k) || (gcKey wc == k)) := by
  unfold dedupPush
  by_cases h : acc.any (fun gc => gcKey gc == gcKey wc)
  · rw [if_pos h]
    by_cases hk : gcKey wc = k
    · rcases List.any_eq_true.mp h with ⟨x, hx, hxw⟩
      have hxw' : gcKey x = gcKey wc := by simpa using hxw
      have : acc.any (fun x => gcKey x == k) = true :=
        List.any_eq_true.mpr ⟨x, hx, by simp [hxw', hk]⟩
      simp [this]
    · have : (gcKey wc == k) = false := by simp [hk]
      simp [this]
  · rw [if_neg h, List.any_append]
    simp

theorem any_dedupFold (ws : List GroundingChunk) (acc : List GroundingChunk)
    (k : Option String) :
    (dedupFold acc ws).any (fun x => gcKey x == k)
      = (acc.any (fun x => gcKey x == k) || ws.any (fun x => gcKey x == k)) := by
  induction ws generalizing acc with
  | nil => simp [dedupFold]
  | cons w ws ih =>
      have step : dedupFold acc (w :: ws) = dedupFold (dedupPush acc w) ws := rfl
      rw [step, ih (dedupPush acc w), any_dedupPush]
      simp [Bool.or_assoc]

theorem countP_le_one_of_gcKeysNodup (l : List GroundingChunk) (k : Option String)
    (h : gcKeysNodup l) : l.countP (fun x => gcKey x == k) ≤ 1 := by
  induction l with
  | nil => simp
  | cons x l ih =>
      simp only [gcKeysNodup, List.map_cons, List.nodup_cons] at h
      rw [List.countP_cons]
      by_cases hx : gcKey x = k
      · have hz : l.countP (fun x => gcKey x == k) = 0 := by
          rw [List.countP_eq_zero]
          intro a ha hpa
          have hak : gcKey a = k := by simpa using hpa
          exact h.1 (hx ▸ hak ▸ List.mem_map_of_mem gcKey ha)
        simp [hz, hx]
      · have hfx : ((fun x => gcKey x == k) x) = false := by simp [hx]
        simpa [hfx] using ih h.2

theorem countP_dedupFold_nil (ws : List GroundingChunk) (k : Option String) :
    (dedupFold [] ws).countP (fun x => gcKey x == k)
      = if ws.any (fun x => gcKey x == k) then 1 else 0 := by
  have hnodup : gcKeysNodup (dedupFold [] ws) :=
    gcKeysNodup_dedupFold ws [] (by simp [gcKeysNodup])
  have hle := countP_le_one_of_gcKeysNodup (dedupFold [] ws) k hnodup
  have hany := any_dedupFold ws [] k
  by_cases h : ws.any (fun x => gcKey x == k)
  · rw [if_pos h]
    have hres : (dedupFold [] ws).any (fun x => gcKey x == k) = true := by
      rw [hany, h]; simp
    rcases List.any_eq_true.mp hres with ⟨x, hx, hxk⟩
    have hpos : 0 < (dedupFold [] ws).countP (fun x => gcKey x == k) :=
      List.countP_pos_iff.mpr ⟨x, hx, hxk⟩
    omega
  · rw [if_neg h]
    have hres : (dedupFold [] ws).any (fun x => gcKey x == k) = false := by
      rw [hany]
      simp only [Bool.or_eq_false_iff]
      exact ⟨by simp, by simpa using h⟩
    rw [List.countP_eq_zero]
    intro a ha
    have := List.any_eq_false.mp hres
    exact fun hpa => (this a ha) hpa

/-- C2: over a whole streamed turn, citations are deduplicated by source URI:
the final yielded response's citation list contains any URI at most once —
exactly once when it occurs in some chunk's grounding metadata — and the entry
kept is the first-seen grounding chunk with that URI (so its title is the
first-seen title); moreover every yielded response carries a `groundingChunks`
field exactly when at least one web citation has been collected up to that
point. -/
theorem call_agent_async_citation_dedup (chunks : List ProviderChunk) (u : String) :
    (∀ r gcs, (call_agent_async chunks).getLast? = some r →
        r.groundingChunks = some gcs →
        (gcs.countP (fun gc => gcKey gc == some u)
            = if (allWebChunks chunks).any (fun gc => gcKey gc == some u)
              then 1 else 0)
          ∧ gcs.find? (fun gc => gcKey gc == some u)
              = (allWebChunks chunks).find? (fun gc => gcKey gc == some u))
    ∧ (∀ i r, (call_agent_async chunks).get? i = some r →
        (r.groundingChunks.isSome ↔ allWebChunks (chunks.take (i + 1)) ≠ [])) := by
  have hgc : ∀ i r, (call_agent_async chunks).get? i = some r →
      r.groundingChunks =
        (if (dedupFold [] (allWebChunks (chunks.take (i + 1)))).length > 0
         then some (dedupFold [] (allWebChunks (chunks.take (i + 1)))) else none) := by
    intro i r hr
    have hi : i < chunks.length := by
      have h1 := (List.get?_eq_some.mp hr).1
      rwa [call_agent_async, agentStream_length] at h1
    rw [call_agent_async, agentStream_get? chunks "" [] i hi] at hr
    have := (Option.some.injEq _ _).mp hr.symm
    rw [this]
  constructor
  · intro r gcs hlast hsome
    have hne : (call_agent_async chunks) ≠ [] := by
      intro hnil
      rw [hnil] at hlast
      simp at hlast
    have hlen : 0 < (call_agent_async chunks).length := List.length_pos.mpr hne
    have hget : (call_agent_async chunks).get? ((call_agent_async chunks).length - 1)
        = some r := by
      rw [List.get?_eq_getElem?, ← List.getLast?_eq_getElem?]
      exact hlast
    have hcl : (call_agent_async chunks).length = chunks.length := by
      rw [call_agent_async, agentStream_length]
    have htake : chunks.take ((call_agent_async chunks).length - 1 + 1) = chunks := by
      rw [hcl]
      have hlenc : 0 < chunks.length := by rwa [hcl] at hlen
      rw [Nat.sub_add_cancel hlenc]
      exact List.take_length chunks
    have := hgc _ r hget
    rw [htake] at this
    rw [this] at hsome
    by_cases hz : (dedupFold [] (allWebChunks chunks)).length > 0
    · rw [if_pos hz] at hsome
      have hgcs : gcs = dedupFold [] (allWebChunks chunks) :=
        ((Option.some.injEq _ _).mp hsome).symm
      subst hgcs
      refine ⟨countP_dedupFold_nil _ _, ?_⟩
      have := find?_dedupFold (allWebChunks chunks) [] (some u)
      simpa using this
    · rw [if_neg hz] at hsome
      simp at hsome
  · intro i r hr
    rw [hgc i r hr]
    by_cases hz : (dedupFold [] (allWebChunks (chunks.take (i + 1)))).length > 0
    · rw [if_pos hz]
      simp only [Option.isSome_some, true_iff]
      intro hnil
      rw [hnil] at hz
      have : dedupFold [] ([] : List GroundingChunk) = [] := rfl
      rw [this] at hz
      simp at hz
    · rw [if_neg hz]
      simp only [Option.isSome_none, Bool.false_eq_true, false_iff, not_not]
      have hlz : (dedupFold [] (allWebChunks (chunks.take (i + 1)))).length = 0 := by
        omega
      have hdnil : dedupFold [] (allWebChunks (chunks.take (i + 1))) = [] :=
        List.length_eq_zero.mp hlz
      exact (dedupFold_nil_eq_nil_iff _).mp hdnil

/-- Witness for C2: a concrete stream whose grounding metadata carries URI "u"
in two different chunks (titles "A" then "B"); the final citation list holds
"u" exactly once, keeping the first-seen entry (title "A"). -/
theorem call_agent_async_citation_dedup_witness :
    (([⟨some ⟨"u", some "A"⟩⟩, ⟨some ⟨"v", none⟩⟩] : List GroundingChunk).countP
        (fun gc => gcKey gc == some "u") = 1)
    ∧ (([⟨some ⟨"u", some "A"⟩⟩, ⟨some ⟨"v", none⟩⟩] : List GroundingChunk).find?
        (fun gc => gcKey gc == some "u") = some ⟨some ⟨"u", some "A"⟩⟩) := by
  have h := (call_agent_async_citation_dedup
      [⟨some "x", some [⟨some ⟨"u", some "A"⟩⟩]⟩,
       ⟨some "y", some [⟨some ⟨"u", some "B"⟩⟩, ⟨some ⟨"v", none⟩⟩, ⟨none⟩]⟩] "u").1
      ⟨"xy", some [⟨some ⟨"u", some "A"⟩⟩, ⟨some ⟨"v", none⟩⟩]⟩
      [⟨some ⟨"u", some "A"⟩⟩, ⟨some ⟨"v", none⟩⟩] (by rfl) (by rfl)
  exact ⟨h.1.trans (by decide), h.2.trans (by decide)⟩

/-!  `AgentRunner` handle cache (agent service inside
`src/components/ChatInput.tsx`): `private chatSessions: Map<string, Chat>`,
`getOrCreateChat`, `resetSession`.  A `Chat` object is opaque; its identity is
embedded as a natural drawn from a freshness counter, so each
`client.chats.create` call yields a handle distinct from all earlier ones. -/

structure AgentRunnerState where
  chatSessions : List (String × Nat)
  nextChatId : Nat
deriving DecidableEq, Repr

/-- `getOrCreateChat`: when no handle exists for the identifier, create a
fresh one with the fixed configuration and store it; then return the stored
handle. -/
def getOrCreateChat (st : AgentRunnerState) (sessionId : String) :
    AgentRunnerState × Nat :=
  match mapGet? st.chatSessions sessionId with
  | some chat => (st, chat)
  | none =>
      ({ chatSessions := mapSet st.chatSessions sessionId st.nextChatId,
         nextChatId := st.nextChatId + 1 }, st.nextChatId)

/-- `resetSession`: `this.chatSessions.delete(sessionId)`. -/
def resetSession (st : AgentRunnerState) (sessionId : String) : AgentRunnerState :=
  { st with chatSessions := mapDelete st.chatSessions sessionId }

/-- C8: the handle cache keeps at most one conversation handle per session
identifier (pairwise-distinct keys are preserved by both operations);
`getOrCreateChat` returns an existing handle with the state unchanged
(idempotent) and creates a handle only when none exists; after `resetSession`
discards the handle, the cache has none for that identifier and a subsequent
`getOrCreateChat` behaves as in the no-handle state, creating a fresh
handle. -/
theorem handle_cache_invariant (st : AgentRunnerState) (sid : String) :
    (∀ c, mapGet? st.chatSessions sid = some c → getOrCreateChat st sid = (st, c))
    ∧ (mapGet? st.chatSessions sid = none →
        (getOrCreateChat st sid).2 = st.nextChatId
          ∧ mapGet? (getOrCreateChat st sid).1.chatSessions sid = some st.nextChatId)
    ∧ mapGet? (resetSession st sid).chatSessions sid = none
    ∧ ((getOrCreateChat (resetSession st sid) sid).2 = st.nextChatId
        ∧ mapGet? ((getOrCreateChat (resetSession st sid) sid).1.chatSessions) sid
            = some st.nextChatId)
    ∧ (keysNodup st.chatSessions →
        keysNodup (getOrCreateChat st sid).1.chatSessions
          ∧ keysNodup (resetSession st sid).chatSessions) := by
  have hreset : mapGet? (resetSession st sid).chatSessions sid = none :=
    mapGet?_mapDelete_self st.chatSessions sid
  refine ⟨?_, ?_, hreset, ?_, ?_⟩
  · intro c hc
    simp [getOrCreateChat, hc]
  · intro hn
    simp [getOrCreateChat, hn, mapGet?_mapSet_self]
  · constructor
    · simp [getOrCreateChat, resetSession, mapGet?_mapDelete_self]
    · simp [getOrCreateChat, resetSession, mapGet?_mapDelete_self, mapGet?_mapSet_self]
  · intro hnd
    constructor
    · cases hc : mapGet? st.chatSessions sid with
      | some c => simpa [getOrCreateChat, hc] using hnd
      | none =>
          simpa [getOrCreateChat, hc] using
            keysNodup_mapSet st.chatSessions sid st.nextChatId hnd
    · exact keysNodup_mapDelete st.chatSessions sid hnd

/-- Witness for C8 at a concrete cache holding handle 0 for session "s":
lookup is idempotent, reset discards the handle, and re-creation yields the
fresh handle 1. -/
theorem handle_cache_invariant_witness :
    (getOrCreateChat ⟨[("s", 0)], 1⟩ "s" = (⟨[("s", 0)], 1⟩, 0))
    ∧ (mapGet? (resetSession (⟨[("s", 0)], 1⟩ : AgentRunnerState) "s").chatSessions "s"
        = none)
    ∧ ((getOrCreateChat (resetSession ⟨[("s", 0)], 1⟩ "s") "s").2 = 1) := by
  refine ⟨?_, ?_, ?_⟩
  · exact (handle_cache_invariant ⟨[("s", 0)], 1⟩ "s").1 0 (by rfl)
  · exact (handle_cache_invariant ⟨[("s", 0)], 1⟩ "s").2.2.1
  · exact (handle_cache_invariant ⟨[("s", 0)], 1⟩ "s").2.2.2.1.1

/-!  `ChatInput` component: attachment size validation (`handleFileSelect`)
and the submission guard (`handleSubmit`). -/

/-- `const MAX_FILE_SIZE_MB = 5`. -/
def MAX_FILE_SIZE_MB : Nat := 5

/-- `const MAX_FILE_SIZE_BYTES = MAX_FILE_SIZE_MB * 1024 * 1024`. -/
def MAX_FILE_SIZE_BYTES : Nat := MAX_FILE_SIZE_MB * 1024 * 1024

/-- A selected browser file: its byte size, declared media type, and the
base64 encoding of its bytes that `FileReader.readAsDataURL` would hand
back. -/
structure JSFile where
  size : Nat
  mimeType : String
  base64Data : String
deriving DecidableEq, Repr

/-- `reader.readAsDataURL(file)` resolves to `data:<mime>;base64,<payload>`. -/
def readAsDataURL (f : JSFile) : String :=
  "data:" ++ f.mimeType ++ ";base64," ++ f.base64Data

/-- JS `String.prototype.split(',')`, over the character data. -/
def splitCommaAux : List Char → List Char → List (List Char)
  | [], cur => [cur.reverse]
  | c :: rest, cur =>
      if c = ',' then cur.reverse :: splitCommaAux rest []
      else splitCommaAux rest (c :: cur)

/-- `base64String.split(',')` in `handleFileSelect`. -/
def splitComma (s : String) : List String :=
  (splitCommaAux s.data []).map List.asString

/-- Local state of `ChatInput` relevant to file selection: the staged
attachment and the hidden file input's `value`. -/
structure ChatInputState where
  attachment : Option Attachment
  fileInputValue : String
deriving DecidableEq, Repr

/-- `handleFileSelect` on `e.target.files`: returns the new component state
plus whether the size-limit notice (`alert`) was shown.  An oversized file is
rejected — the notice is shown, the file input is reset to `""`, and the
staged attachment is left untouched; otherwise the file is read as a data
URL, the part after the comma is kept (`base64String.split(',')[1]`), and the
payload is staged together with the file's declared media type. -/
def handleFileSelect (st : ChatInputState) (files : List JSFile) :
    ChatInputState × Bool :=
  match files.head? with
  | none => (st, false)
  | some file =>
      if file.size > MAX_FILE_SIZE_BYTES then
        ({ st with fileInputValue := "" }, true)
      else
        let base64Content := ((splitComma (readAsDataURL file)).get? 1).getD ""
        ({ st with attachment := some { base64 := base64Content,
                                        mimeType := file.mimeType } }, false)

/-- JS `String.prototype.trim`, over the character data. -/
def jsTrim (s : String) : String :=
  ((s.data.dropWhile Char.isWhitespace).reverse.dropWhile
      Char.isWhitespace).reverse.asString

/-- `handleSubmit`: fires `onSend(input.trim(), attachment || undefined)` only
when there is non-empty trimmed text or a staged attachment and the input is
not disabled; yields the submitted payload, or `none` when no turn is
submitted. -/
def handleSubmit (input : String) (attachment : Option Attachment)
    (disabled : Bool) : Option (String × Option Attachment) :=
  if (jsTrim input ≠ "" ∨ attachment.isSome) ∧ disabled = false then
    some (jsTrim input, attachment)
  else none

/-- C4: a file whose size is exactly the 5 MiB threshold is accepted and its
payload staged; a file one byte over is rejected — the recoverable notice is
shown (the handler is total, no crash), no attachment is staged from that
file, the previously staged attachment stays in place, and the file-selection
control is reset to empty. -/
theorem handleFileSelect_size_boundary (st : ChatInputState) (f : JSFile) :
    (f.size = MAX_FILE_SIZE_BYTES →
        handleFileSelect st [f]
          = ({ st with attachment := some ⟨((splitComma (readAsDataURL f)).get? 1).getD "", f.mimeType⟩ }, false))
    ∧ (f.size = MAX_FILE_SIZE_BYTES + 1 →
        handleFileSelect st [f] = ({ st with fileInputValue := "" }, true)
          ∧ (handleFileSelect st [f]).1.attachment = st.attachment) := by
  constructor
  · intro h
    have hle : ¬ f.size > MAX_FILE_SIZE_BYTES := by omega
    simp [handleFileSelect, hle]
  · intro h
    have hgt : f.size > MAX_FILE_SIZE_BYTES := by omega
    constructor
    · simp [handleFileSelect, hgt]
    · simp [handleFileSelect, hgt]

/-- Witness for C4: a 5242880-byte PNG is accepted and its payload "QUJD"
staged; a 5242881-byte file is rejected, the previously staged attachment
survives, and the file input value is cleared. -/
theorem handleFileSelect_size_boundary_witness :
    (handleFileSelect ⟨none, ""⟩ [⟨5242880, "image/png", "QUJD"⟩]
        = ({ attachment := some ⟨"QUJD", "image/png"⟩, fileInputValue := "" }, false))
    ∧ (handleFileSelect ⟨some ⟨"QUJD", "image/png"⟩, "f.png"⟩
          [⟨5242881, "image/png", "AAAA"⟩]
        = ({ attachment := some ⟨"QUJD", "image/png"⟩, fileInputValue := "" }, true)) := by
  constructor
  · have h := (handleFileSelect_size_boundary ⟨none, ""⟩
        ⟨5242880, "image/png", "QUJD"⟩).1 (by decide)
    exact h.trans (by decide)
  · have h := (handleFileSelect_size_boundary ⟨some ⟨"QUJD", "image/png"⟩, "f.png"⟩
        ⟨5242881, "image/png", "AAAA"⟩).2 (by decide)
    exact h.1

/-!  `App.handleSendMessage` — the turn driver: appends the user message,
drives the agent stream, splices snapshots into the displayed list, persists
the final assistant message on success, or appends the fixed system error
message on failure. -/

/-- Modelled from the spec: UI turn status (`SessionState.status`). -/
inductive Status where
  | idle
  | thinking
  | streaming
  | error
deriving DecidableEq, Repr

/-- Modelled from the spec: `SessionState` — active session identifier,
displayed message list, and turn status. -/
structure SessionState where
  sessionId : String
  messages : List Message
  status : Status
deriving DecidableEq, Repr

/-- Outcome of the provider stream for one turn: the chunks yielded before
normal completion (`ok`), or the chunks yielded before the provider throws
(`err`; `err []` is a throw before the first chunk). -/
inductive StreamOutcome where
  | ok (chunks : List ProviderChunk)
  | err (chunks : List ProviderChunk)
deriving DecidableEq, Repr

/-- The splice rule of the streaming loop: append the in-progress assistant
message when the last displayed message is the user's turn, otherwise replace
the last displayed message in place.  (`handleSendMessage` only reaches this
with a nonempty list — the user message was just appended.) -/
def spliceAssistant (msgs : List Message) (am : Message) : List Message :=
  match msgs.getLast? with
  | some lastMsg =>
      if lastMsg.role = MessageRole.user then msgs ++ [am]
      else msgs.dropLast ++ [am]
  | none => msgs ++ [am]

/-- The `for await` loop of `handleSendMessage`: on the first chunk the
status is set to "streaming"; each snapshot rebuilds the in-progress
assistant message with the snapshot's cumulative text and citations and
splices it into the displayed list.  Returns the final in-progress assistant
message, the final session state, and every intermediate state in order. -/
def streamLoop (am : Message) (first : Bool) (st : SessionState) :
    List AgentResponse → Message × SessionState × List SessionState
  | [] => (am, st, [])
  | r :: rs =>
      let st1 := if first then { st with status := Status.streaming } else st
      let am' := { am with content := r.text, groundingChunks := r.groundingChunks }
      let st2 := { st1 with messages := spliceAssistant st1.messages am' }
      let res := streamLoop am' false st2 rs
      (res.1, res.2.1, (if first then [st1] else []) ++ st2 :: res.2.2)

/-- The fixed user-visible error text of the catch branch. -/
def systemErrorText : String := "**[SYSTEM ERROR]** Ошибка обработки запроса или файла."

/-- The user message built at the top of `handleSendMessage`. -/
def mkUserMessage (uid : Nat) (content : String) (ts : Nat)
    (attachment : Option Attachment) : Message :=
  { id := uid, role := MessageRole.user, content := content, timestamp := ts,
    attachment := attachment }

/-- The synthetic system message built in the catch branch. -/
def mkErrorMessage (eid ts : Nat) : Message :=
  { id := eid, role := MessageRole.system, content := systemErrorText,
    timestamp := ts }

/-- The state after persisting and displaying the user message: appended to
the displayed list, status "thinking". -/
def userTurnState (st0 : SessionState) (userMsg : Message) : SessionState :=
  { st0 with messages := st0.messages ++ [userMsg], status := Status.thinking }

/-- The initial in-progress assistant message (`currentAssistantMsg`). -/
def mkAssistant0 (aid ts : Nat) : Message :=
  { id := aid, role := MessageRole.assistant, content := "", timestamp := ts }

/-- Result of one turn: final session state, final session store, and the
intermediate session states (one per `setSessionState` call) in order. -/
structure TurnResult where
  finalState : SessionState
  finalStore : SessionStore
  trace : List SessionState
deriving DecidableEq, Repr

/-- `handleSendMessage`: guard on a present session id; persist and display
the user message with status "thinking"; drive the agent stream; on normal
completion persist the final in-progress assistant message and return to
"idle"; on a throw append the fixed system error message to the displayed
list and the store and set status "error".  Fresh ids and the timestamp are
supplied by the environment. -/
def handleSendMessage (st0 : SessionState) (store0 : SessionStore)
    (content : String) (attachment : Option Attachment)
    (userMsgId assistantMsgId errorMsgId ts : Nat)
    (outcome : StreamOutcome) : TurnResult :=
  if st0.sessionId = "" then ⟨st0, store0, []⟩
  else
    let userMsg := mkUserMessage userMsgId content ts attachment
    let store1 := addMessage store0 st0.sessionId userMsg
    let st1 := userTurnState st0 userMsg
    match outcome with
    | StreamOutcome.ok chunks =>
        let res := streamLoop (mkAssistant0 assistantMsgId ts) true st1
          (call_agent_async chunks)
        let store2 := addMessage store1 st0.sessionId res.1
        let stF := { res.2.1 with status := Status.idle }
        ⟨stF, store2, st1 :: res.2.2 ++ [stF]⟩
    | StreamOutcome.err chunks =>
        let res := streamLoop (mkAssistant0 assistantMsgId ts) true st1
          (call_agent_async chunks)
        let errorMsg := mkErrorMessage errorMsgId ts
        let store2 := addMessage store1 st0.sessionId errorMsg
        let stF := { res.2.1 with
                     messages := res.2.1.messages ++ [errorMsg],
                     status := Status.error }
        ⟨stF, store2, st1 :: res.2.2 ++ [stF]⟩

/-- Adjacent-duplicate compression of a status list. -/
def dedupAdj : List Status → List Status
  | [] => []
  | [s] => [s]
  | s :: t :: rest => if s = t then dedupAdj (t :: rest) else s :: dedupAdj (t :: rest)

/-- The turn's status trajectory: the initial status followed by the status
of every intermediate state, with adjacent repeats collapsed. -/
def statusTrace (st0 : SessionState) (tr : TurnResult) : List Status :=
  dedupAdj (st0.status :: tr.trace.map SessionState.status)

/-- `App` passes `disabled` to `ChatInput` as
`status === thinking || status === streaming`. -/
def inputDisabled (s : Status) : Bool :=
  s == Status.thinking || s == Status.streaming

/-- The rebuilt in-progress assistant message after one snapshot. -/
def amNext (am : Message) (r : AgentResponse) : Message :=
  { am with content := r.text, groundingChunks := r.groundingChunks }

/-- The displayed state after splicing one snapshot. -/
def stNext (st : SessionState) (am : Message) (r : AgentResponse) : SessionState :=
  { st with messages := spliceAssistant st.messages (amNext am r) }

theorem streamLoop_false_cons (am : Message) (st : SessionState) (r : AgentResponse)
    (rs : List AgentResponse) :
    streamLoop am false st (r :: rs)
      = ((streamLoop (amNext am r) false (stNext st am r) rs).1,
         (streamLoop (amNext am r) false (stNext st am r) rs).2.1,
         stNext st am r :: (streamLoop (amNext am r) false (stNext st am r) rs).2.2) :=
  rfl

theorem streamLoop_true_cons (am : Message) (st : SessionState) (r : AgentResponse)
    (rs : List AgentResponse) :
    streamLoop am true st (r :: rs)
      = ((streamLoop (amNext am r) false
            (stNext { st with status := Status.streaming } am r) rs).1,
         (streamLoop (amNext am r) false
            (stNext { st with status := Status.streaming } am r) rs).2.1,
         { st with status := Status.streaming }
           :: stNext { st with status := Status.streaming } am r
           :: (streamLoop (amNext am r) false
                (stNext { st with status := Status.streaming } am r) rs).2.2) :=
  rfl

theorem streamLoop_false_status (rs : List AgentResponse) :
    ∀ (am : Message) (st : SessionState),
      (streamLoop am false st rs).2.1.status = st.status
        ∧ (∀ s ∈ (streamLoop am false st rs).2.2, s.status = st.status) := by
  induction rs with
  | nil =>
      intro am st
      exact ⟨rfl, by simp [streamLoop]⟩
  | cons r rs ih =>
      intro am st
      obtain ⟨ih1, ih2⟩ := ih (amNext am r) (stNext st am r)
      rw [streamLoop_false_cons]
      refine ⟨ih1, ?_⟩
      intro s hs
      rcases List.mem_cons.mp hs with rfl | hs
      · rfl
      · exact ih2 s hs

theorem streamLoop_true_status (rs : List AgentResponse) (am : Message)
    (st : SessionState) (h : rs ≠ []) :
    (streamLoop am true st rs).2.1.status = Status.streaming
      ∧ (∀ s ∈ (streamLoop am true st rs).2.2, s.status = Status.streaming)
      ∧ (streamLoop am true st rs).2.2 ≠ [] := by
  cases rs with
  | nil => exact absurd rfl h
  | cons r rs =>
      obtain ⟨h1, h2⟩ := streamLoop_false_status rs (amNext am r)
        (stNext { st with status := Status.streaming } am r)
      rw [streamLoop_true_cons]
      refine ⟨h1, ?_, by simp⟩
      intro s hs
      rcases List.mem_cons.mp hs with rfl | hs
      · rfl
      · rcases List.mem_cons.mp hs with rfl | hs
        · rfl
        · exact h2 s hs

theorem call_agent_async_ne_nil (chunks : List ProviderChunk) (h : chunks ≠ []) :
    call_agent_async chunks ≠ [] := by
  intro hnil
  have hlen := agentStream_length chunks "" []
  rw [call_agent_async] at hnil
  rw [hnil] at hlen
  simp only [List.length_nil] at hlen
  exact h (List.length_eq_zero.mp hlen.symm)

theorem handleSendMessage_ok_eq (st0 : SessionState) (store0 : SessionStore)
    (content : String) (attachment : Option Attachment) (uid aid eid ts : Nat)
    (chunks : List ProviderChunk) (hsid : ¬ st0.sessionId = "") :
    handleSendMessage st0 store0 content attachment uid aid eid ts
        (StreamOutcome.ok chunks)
      = ⟨{ (streamLoop (mkAssistant0 aid ts) true
              (userTurnState st0 (mkUserMessage uid content ts attachment))
              (call_agent_async chunks)).2.1 with status := Status.idle },
         addMessage
           (addMessage store0 st0.sessionId (mkUserMessage uid content ts attachment))
           st0.sessionId
           (streamLoop (mkAssistant0 aid ts) true
              (userTurnState st0 (mkUserMessage uid content ts attachment))
              (call_agent_async chunks)).1,
         userTurnState st0 (mkUserMessage uid content ts attachment)
           :: (streamLoop (mkAssistant0 aid ts) true
                (userTurnState st0 (mkUserMessage uid content ts attachment))
                (call_agent_async chunks)).2.2
           ++ [{ (streamLoop (mkAssistant0 aid ts) true
                   (userTurnState st0 (mkUserMessage uid content ts attachment))
                   (call_agent_async chunks)).2.1 with status := Status.idle }]⟩ := by
  rw [handleSendMessage.eq_def, if_neg hsid]

theorem handleSendMessage_err_eq (st0 : SessionState) (store0 : SessionStore)
    (content : String) (attachment : Option Attachment) (uid aid eid ts : Nat)
    (chunks : List ProviderChunk) (hsid : ¬ st0.sessionId = "") :
    handleSendMessage st0 store0 content attachment uid aid eid ts
        (StreamOutcome.err chunks)
      = ⟨{ (streamLoop (mkAssistant0 aid ts) true
              (userTurnState st0 (mkUserMessage uid content ts attachment))
              (call_agent_async chunks)).2.1 with
           messages := (streamLoop (mkAssistant0 aid ts) true
              (userTurnState st0 (mkUserMessage uid content ts attachment))
              (call_agent_async chunks)).2.1.messages ++ [mkErrorMessage eid ts],
           status := Status.error },
         addMessage
           (addMessage store0 st0.sessionId (mkUserMessage uid content ts attachment))
           st0.sessionId (mkErrorMessage eid ts),
         userTurnState st0 (mkUserMessage uid content ts attachment)
           :: (streamLoop (mkAssistant0 aid ts) true
                (userTurnState st0 (mkUserMessage uid content ts attachment))
                (call_agent_async chunks)).2.2
           ++ [{ (streamLoop (mkAssistant0 aid ts) true
                   (userTurnState st0 (mkUserMessage uid content ts attachment))
                   (call_agent_async chunks)).2.1 with
                 messages := (streamLoop (mkAssistant0 aid ts) true
                    (userTurnState st0 (mkUserMessage uid content ts attachment))
                    (call_agent_async chunks)).2.1.messages ++ [mkErrorMessage eid ts],
                 status := Status.error }]⟩ := by
  rw [handleSendMessage.eq_def, if_neg hsid]

/-- C5: when the provider throws before yielding any chunk, no assistant
message is added to the displayed transcript or to the Session Store for that
turn; exactly one system-role message carrying the fixed error text is
appended to both, and the turn status becomes "error". -/
theorem provider_error_before_first_chunk (st0 : SessionState)
    (store0 : SessionStore) (content : String) (attachment : Option Attachment)
    (uid aid eid ts : Nat) (hsid : ¬ st0.sessionId = "") :
    (handleSendMessage st0 store0 content attachment uid aid eid ts
        (StreamOutcome.err [])).finalState.status = Status.error
    ∧ (handleSendMessage st0 store0 content attachment uid aid eid ts
        (StreamOutcome.err [])).finalState.messages
       = st0.messages
           ++ [mkUserMessage uid content ts attachment, mkErrorMessage eid ts]
    ∧ (mkErrorMessage eid ts).role = MessageRole.system
    ∧ (mkErrorMessage eid ts).content = systemErrorText
    ∧ getHistory (handleSendMessage st0 store0 content attachment uid aid eid ts
          (StreamOutcome.err [])).finalStore st0.sessionId
        = getHistory store0 st0.sessionId
            ++ [mkUserMessage uid content ts attachment, mkErrorMessage eid ts]
    ∧ (∀ m ∈ (handleSendMessage st0 store0 content attachment uid aid eid ts
          (StreamOutcome.err [])).finalState.messages,
        m.role = MessageRole.assistant → m ∈ st0.messages)
    ∧ (∀ m ∈ getHistory (handleSendMessage st0 store0 content attachment uid aid eid ts
          (StreamOutcome.err [])).finalStore st0.sessionId,
        m.role = MessageRole.assistant → m ∈ getHistory store0 st0.sessionId) := by
  rw [handleSendMessage_err_eq st0 store0 content attachment uid aid eid ts [] hsid]
  have hsl : streamLoop (mkAssistant0 aid ts) true
      (userTurnState st0 (mkUserMessage uid content ts attachment))
      (call_agent_async [])
      = (mkAssistant0 aid ts,
         userTurnState st0 (mkUserMessage uid content ts attachment), []) := rfl
  rw [hsl]
  have hmsg :
      (userTurnState st0 (mkUserMessage uid content ts attachment)).messages
          ++ [mkErrorMessage eid ts]
        = st0.messages
            ++ [mkUserMessage uid content ts attachment, mkErrorMessage eid ts] := by
    simp [userTurnState]
  have hstore :
      getHistory
          (addMessage
            (addMessage store0 st0.sessionId (mkUserMessage uid content ts attachment))
            st0.sessionId (mkErrorMessage eid ts)) st0.sessionId
        = getHistory store0 st0.sessionId
            ++ [mkUserMessage uid content ts attachment, mkErrorMessage eid ts] := by
    rw [getHistory_addMessage_self, getHistory_addMessage_self]
    simp
  refine ⟨rfl, hmsg, rfl, rfl, hstore, ?_, ?_⟩
  · intro m hm hrole
    have hm' : m ∈ st0.messages
        ++ [mkUserMessage uid content ts attachment, mkErrorMessage eid ts] := by
      rw [← hmsg]
      exact hm
    rcases List.mem_append.mp hm' with hm'' | hm''
    · exact hm''
    · rcases List.mem_cons.mp hm'' with rfl | hm3
      · simp [mkUserMessage] at hrole
      · rcases List.mem_singleton.mp hm3 with rfl
        simp [mkErrorMessage] at hrole
  · intro m hm hrole
    have hm' : m ∈ getHistory store0 st0.sessionId
        ++ [mkUserMessage uid content ts attachment, mkErrorMessage eid ts] := by
      rw [← hstore]
      exact hm
    rcases List.mem_append.mp hm' with hm'' | hm''
    · exact hm''
    · rcases List.mem_cons.mp hm'' with rfl | hm3
      · simp [mkUserMessage] at hrole
      · rcases List.mem_singleton.mp hm3 with rfl
        simp [mkErrorMessage] at hrole

/-- Witness for C5 at a concrete turn: an immediate provider throw yields the
transcript [user "q", system error], persists exactly those two messages, and
ends in status "error". -/
theorem provider_error_before_first_chunk_witness :
    (handleSendMessage ⟨"s", [], Status.idle⟩ [] "q" none 1 2 3 0
        (StreamOutcome.err [])).finalState.status = Status.error
    ∧ (handleSendMessage ⟨"s", [], Status.idle⟩ [] "q" none 1 2 3 0
        (StreamOutcome.err [])).finalState.messages
       = [mkUserMessage 1 "q" 0 none, mkErrorMessage 3 0]
    ∧ getHistory (handleSendMessage ⟨"s", [], Status.idle⟩ [] "q" none 1 2 3 0
          (StreamOutcome.err [])).finalStore "s"
        = [mkUserMessage 1 "q" 0 none, mkErrorMessage 3 0] := by
  have h := provider_error_before_first_chunk ⟨"s", [], Status.idle⟩ [] "q" none
    1 2 3 0 (by decide)
  exact ⟨h.1, by simpa using h.2.1, by simpa [getHistory] using h.2.2.2.2.1⟩

/-- C6 (amended): on a mid-stream provider failure there is no automatic
retry and no partial-result salvage in the Session Store: the store receives
for the failed turn exactly the user message followed by the synthetic error
message, never any (partial) assistant message; in the displayed transcript,
however, the synthetic error message is appended after the streamed display
state, so a displayed partial assistant message remains in the transcript
followed by the error message rather than being superseded by it; the status
becomes "error". -/
theorem midstream_failure_no_salvage (st0 : SessionState) (store0 : SessionStore)
    (content : String) (attachment : Option Attachment) (uid aid eid ts : Nat)
    (chunks : List ProviderChunk) (hsid : ¬ st0.sessionId = "") :
    getHistory (handleSendMessage st0 store0 content attachment uid aid eid ts
          (StreamOutcome.err chunks)).finalStore st0.sessionId
        = getHistory store0 st0.sessionId
            ++ [mkUserMessage uid content ts attachment, mkErrorMessage eid ts]
    ∧ (∀ m ∈ getHistory (handleSendMessage st0 store0 content attachment uid aid eid ts
          (StreamOutcome.err chunks)).finalStore st0.sessionId,
        m.role = MessageRole.assistant → m ∈ getHistory store0 st0.sessionId)
    ∧ (handleSendMessage st0 store0 content attachment uid aid eid ts
          (StreamOutcome.err chunks)).finalState.messages
        = (streamLoop (mkAssistant0 aid ts) true
            (userTurnState st0 (mkUserMessage uid content ts attachment))
            (call_agent_async chunks)).2.1.messages ++ [mkErrorMessage eid ts]
    ∧ (handleSendMessage st0 store0 content attachment uid aid eid ts
          (StreamOutcome.err chunks)).finalState.status = Status.error := by
  rw [handleSendMessage_err_eq st0 store0 content attachment uid aid eid ts chunks hsid]
  have hstore :
      getHistory
          (addMessage
            (addMessage store0 st0.sessionId (mkUserMessage uid content ts attachment))
            st0.sessionId (mkErrorMessage eid ts)) st0.sessionId
        = getHistory store0 st0.sessionId
            ++ [mkUserMessage uid content ts attachment, mkErrorMessage eid ts] := by
    rw [getHistory_addMessage_self, getHistory_addMessage_self]
    simp
  refine ⟨hstore, ?_, rfl, rfl⟩
  intro m hm hrole
  have hm' : m ∈ getHistory store0 st0.sessionId
      ++ [mkUserMessage uid content ts attachment, mkErrorMessage eid ts] := by
    rw [← hstore]
    exact hm
  rcases List.mem_append.mp hm' with hm'' | hm''
  · exact hm''
  · rcases List.mem_cons.mp hm'' with rfl | hm3
    · simp [mkUserMessage] at hrole
    · rcases List.mem_singleton.mp hm3 with rfl
      simp [mkErrorMessage] at hrole

/-- Witness for C6 at a concrete mid-stream failure (one chunk "par", then a
throw): the store holds exactly the user and error messages, and the status is
"error". -/
theorem midstream_failure_no_salvage_witness :
    getHistory (handleSendMessage ⟨"s", [], Status.idle⟩ [] "q" none 1 2 3 0
          (StreamOutcome.err [⟨some "par", none⟩])).finalStore "s"
        = [mkUserMessage 1 "q" 0 none, mkErrorMessage 3 0]
    ∧ (handleSendMessage ⟨"s", [], Status.idle⟩ [] "q" none 1 2 3 0
          (StreamOutcome.err [⟨some "par", none⟩])).finalState.status
        = Status.error := by
  have h := midstream_failure_no_salvage ⟨"s", [], Status.idle⟩ [] "q" none 1 2 3 0
      [⟨some "par", none⟩] (by decide)
  exact ⟨by simpa [getHistory] using h.1, h.2.2.2⟩

/-- C6 counterexample: one chunk with text "par" is yielded and displayed,
then the provider throws; the displayed transcript keeps the partial
assistant message (text "par") in place and appends the error message after
it — the partial assistant text is preserved in the displayed transcript, not
superseded by the error message as the claim states. -/
theorem midstream_failure_counterexample :
    ((handleSendMessage ⟨"s", [], Status.idle⟩ [] "q" none 1 2 3 0
        (StreamOutcome.err [⟨some "par", none⟩])).finalState.messages
      = [mkUserMessage 1 "q" 0 none,
         { id := 2, role := MessageRole.assistant, content := "par", timestamp := 0 },
         mkErrorMessage 3 0])
    ∧ ({ id := 2, role := MessageRole.assistant, content := "par",
         timestamp := 0 } : Message).role = MessageRole.assistant :=
  ⟨rfl, rfl⟩

theorem dedupAdj_streaming_block (m : Nat) (z : Status)
    (hz : ¬ Status.streaming = z) :
    dedupAdj (Status.streaming :: (List.replicate m Status.streaming ++ [z]))
      = [Status.streaming, z] := by
  induction m with
  | zero => simp [dedupAdj, hz]
  | succ m ih =>
      rw [List.replicate_succ, List.cons_append]
      simpa [dedupAdj] using ih

theorem dedupAdj_turn (n : Nat) (z : Status)
    (hz1 : ¬ Status.streaming = z) (hz2 : ¬ Status.thinking = z) :
    dedupAdj (Status.idle :: Status.thinking ::
        (List.replicate n Status.streaming ++ [z]))
      = if n = 0 then [Status.idle, Status.thinking, z]
        else [Status.idle, Status.thinking, Status.streaming, z] := by
  cases n with
  | zero => simp [dedupAdj, hz2]
  | succ m =>
      rw [if_neg (Nat.succ_ne_zero m), List.replicate_succ, List.cons_append]
      have hstep : dedupAdj (Status.idle :: Status.thinking :: Status.streaming ::
          (List.replicate m Status.streaming ++ [z]))
          = Status.idle :: Status.thinking :: dedupAdj (Status.streaming ::
              (List.replicate m Status.streaming ++ [z])) := by
        simp [dedupAdj]
      rw [hstep, dedupAdj_streaming_block m z hz1]

/-- C7 (amended): starting from "idle", the turn-status trajectory is
idle → thinking → streaming → idle on a success with at least one chunk and
idle → thinking → idle on a zero-chunk success; on failure it is
idle → thinking → error when the provider throws before the first chunk and
idle → thinking → streaming → error on a mid-stream failure — so "streaming"
is entered exactly when at least one chunk has arrived; and while the status
is "thinking" or "streaming" the input is disabled and `handleSubmit` submits
no new turn. -/
theorem turn_status_machine (st0 : SessionState) (store0 : SessionStore)
    (content : String) (attachment : Option Attachment) (uid aid eid ts : Nat)
    (hsid : ¬ st0.sessionId = "") (hidle : st0.status = Status.idle) :
    (∀ chunks, chunks ≠ [] →
        statusTrace st0 (handleSendMessage st0 store0 content attachment uid aid eid ts
            (StreamOutcome.ok chunks))
          = [Status.idle, Status.thinking, Status.streaming, Status.idle])
    ∧ statusTrace st0 (handleSendMessage st0 store0 content attachment uid aid eid ts
          (StreamOutcome.ok []))
        = [Status.idle, Status.thinking, Status.idle]
    ∧ (∀ chunks, chunks ≠ [] →
        statusTrace st0 (handleSendMessage st0 store0 content attachment uid aid eid ts
            (StreamOutcome.err chunks))
          = [Status.idle, Status.thinking, Status.streaming, Status.error])
    ∧ statusTrace st0 (handleSendMessage st0 store0 content attachment uid aid eid ts
          (StreamOutcome.err []))
        = [Status.idle, Status.thinking, Status.error]
    ∧ inputDisabled Status.thinking = true
    ∧ inputDisabled Status.streaming = true
    ∧ (∀ inp att, handleSubmit inp att true = none) := by
  have hmapL : ∀ (L : List SessionState), (∀ s ∈ L, s.status = Status.streaming) →
      L.map SessionState.status
        = List.replicate (L.map SessionState.status).length Status.streaming := by
    intro L hL
    apply List.eq_replicate_of_mem
    intro b hb
    rcases List.mem_map.mp hb with ⟨s, hs, rfl⟩
    exact hL s hs
  refine ⟨?_, ?_, ?_, ?_, rfl, rfl, ?_⟩
  · intro chunks hchunks
    rw [handleSendMessage_ok_eq st0 store0 content attachment uid aid eid ts chunks hsid]
    have hne := call_agent_async_ne_nil chunks hchunks
    obtain ⟨hfin, hall, hnn⟩ := streamLoop_true_status (call_agent_async chunks)
      (mkAssistant0 aid ts)
      (userTurnState st0 (mkUserMessage uid content ts attachment)) hne
    have hmap := hmapL _ hall
    have hlen : ((streamLoop (mkAssistant0 aid ts) true
        (userTurnState st0 (mkUserMessage uid content ts attachment))
        (call_agent_async chunks)).2.2.map SessionState.status).length ≠ 0 := by
      intro hzero
      exact hnn (by
        have := List.length_eq_zero.mp hzero
        exact List.map_eq_nil_iff.mp this)
    show dedupAdj (st0.status :: _) = _
    rw [hidle]
    simp only [List.map_cons, List.map_append, List.map_cons, List.map_nil]
    show dedupAdj (Status.idle :: Status.thinking ::
        ((streamLoop (mkAssistant0 aid ts) true
          (userTurnState st0 (mkUserMessage uid content ts attachment))
          (call_agent_async chunks)).2.2.map SessionState.status ++ [Status.idle]))
      = [Status.idle, Status.thinking, Status.streaming, Status.idle]
    rw [hmap, dedupAdj_turn _ Status.idle (by simp) (by simp), if_neg hlen]
  · rw [handleSendMessage_ok_eq st0 store0 content attachment uid aid eid ts [] hsid]
    show dedupAdj (st0.status :: _) = _
    rw [hidle]
    rfl
  · intro chunks hchunks
    rw [handleSendMessage_err_eq st0 store0 content attachment uid aid eid ts chunks hsid]
    have hne := call_agent_async_ne_nil chunks hchunks
    obtain ⟨hfin, hall, hnn⟩ := streamLoop_true_status (call_agent_async chunks)
      (mkAssistant0 aid ts)
      (userTurnState st0 (mkUserMessage uid content ts attachment)) hne
    have hmap := hmapL _ hall
    have hlen : ((streamLoop (mkAssistant0 aid ts) true
        (userTurnState st0 (mkUserMessage uid content ts attachment))
        (call_agent_async chunks)).2.2.map SessionState.status).length ≠ 0 := by
      intro hzero
      exact hnn (by
        have := List.length_eq_zero.mp hzero
        exact List.map_eq_nil_iff.mp this)
    show dedupAdj (st0.status :: _) = _
    rw [hidle]
    simp only [List.map_cons, List.map_append, List.map_cons, List.map_nil]
    show dedupAdj (Status.idle :: Status.thinking ::
        ((streamLoop (mkAssistant0 aid ts) true
          (userTurnState st0 (mkUserMessage uid content ts attachment))
          (call_agent_async chunks)).2.2.map SessionState.status ++ [Status.error]))
      = [Status.idle, Status.thinking, Status.streaming, Status.error]
    rw [hmap, dedupAdj_turn _ Status.error (by simp) (by simp), if_neg hlen]
  · rw [handleSendMessage_err_eq st0 store0 content attachment uid aid eid ts [] hsid]
    show dedupAdj (st0.status :: _) = _
    rw [hidle]
    rfl
  · intro inp att
    simp [handleSubmit]

/-- Witness for C7 at a concrete turn from "idle": a one-chunk success passes
through idle → thinking → streaming → idle. -/
theorem turn_status_machine_witness :
    statusTrace ⟨"s", [], Status.idle⟩
        (handleSendMessage ⟨"s", [], Status.idle⟩ [] "q" none 1 2 3 0
          (StreamOutcome.ok [⟨some "x", none⟩]))
      = [Status.idle, Status.thinking, Status.streaming, Status.idle] :=
  (turn_status_machine ⟨"s", [], Status.idle⟩ [] "q" none 1 2 3 0
    (by decide) rfl).1 [⟨some "x", none⟩] (by simp)

/-- C7 counterexample: a mid-stream failure (one chunk, then a throw) drives
the status through idle → thinking → streaming → error, which is neither of
the two trajectories the claim allows (success idle→thinking→streaming→idle,
failure idle→thinking→error). -/
theorem turn_status_machine_counterexample :
    (statusTrace ⟨"s", [], Status.idle⟩
        (handleSendMessage ⟨"s", [], Status.idle⟩ [] "q" none 1 2 3 0
          (StreamOutcome.err [⟨some "par", none⟩]))
      = [Status.idle, Status.thinking, Status.streaming, Status.error])
    ∧ ([Status.idle, Status.thinking, Status.streaming, Status.error]
        ≠ [Status.idle, Status.thinking, Status.streaming, Status.idle])
    ∧ ([Status.idle, Status.thinking, Status.streaming, Status.error]
        ≠ [Status.idle, Status.thinking, Status.error]) :=
  ⟨rfl, by decide, by decide⟩

end Crawl4AI
